import Mathlib

/-!
# EncryptX — verification of the container-encryption core and frontend helpers

The repository splits into a Rust backend (the file-container encryption
engine: framing format, dual-mode key derivation, AES-256-GCM sealing,
compression) and a Next.js frontend (request building, key generation,
filename extraction).  The frontend sources are embedded directly from the
TypeScript files; the backend engine itself ships only as documentation
(DOCS.md / README.md), so its components are modelled from the spec, with
each such definition marked `Modelled from the spec:` in its doc comment.

Bytes are represented as natural numbers; byte sequences as `List Nat`.
Machine-width fields (u32 lengths, u64 timestamps) are encoded with
explicit big-endian byte functions and `% 256` arithmetic.
-/

namespace EncryptX

/-- Error taxonomy of the engine, exactly the five kinds of spec section 7.
Modelled from the spec: `FormatError` (malformed/truncated/unparsable),
`ValidationError` (wrong key length, sub-floor KDF parameters, wrong secret
kind), `AuthenticationError` (AEAD tag mismatch), `ResourceError`,
`InternalError`. -/
inductive CryptoError
  | FormatError
  | ValidationError
  | AuthenticationError
  | ResourceError
  | InternalError
deriving DecidableEq, Repr

/-- Encryption mode: raw 32-byte key or password-derived key. -/
inductive Mode
  | keyMode
  | password
deriving DecidableEq, Repr

/-! ## Big-endian byte encodings -/

/-- Big-endian encoding of `n` on `w` bytes (most significant first). -/
def beBytes : Nat → Nat → List Nat
  | 0, _ => []
  | w + 1, n => beBytes w (n / 256) ++ [n % 256]

/-- Big-endian decoding of an arbitrary byte list (bytes reduced mod 256). -/
def fromBE (l : List Nat) : Nat :=
  l.foldl (fun a b => a * 256 + b % 256) 0

/-- The 4-byte big-endian length field of the container format. -/
def be32 (n : Nat) : List Nat := beBytes 4 n

/-- The 8-byte big-endian timestamp field of the header encoding. -/
def be64 (n : Nat) : List Nat := beBytes 8 n

theorem length_beBytes (w n : Nat) : (beBytes w n).length = w := by
  induction w generalizing n with
  | zero => rfl
  | succ w ih => simp [beBytes, ih]

theorem fromBE_append_singleton (l : List Nat) (b : Nat) :
    fromBE (l ++ [b]) = fromBE l * 256 + b % 256 := by
  simp [fromBE, List.foldl_append]

theorem fromBE_beBytes (w n : Nat) (h : n < 256 ^ w) :
    fromBE (beBytes w n) = n := by
  induction w generalizing n with
  | zero =>
    have : n = 0 := by
      have := h
      simp [pow_zero] at this
      omega
    simp [this, beBytes, fromBE]
  | succ w ih =>
    have hdiv : n / 256 < 256 ^ w := by
      have hlt : n < 256 * 256 ^ w := by
        calc n < 256 ^ (w + 1) := h
        _ = 256 * 256 ^ w := by ring
      exact Nat.div_lt_of_lt_mul hlt
    rw [beBytes, fromBE_append_singleton, ih _ hdiv]
    omega

theorem fromBE_be32 (n : Nat) (h : n < 2 ^ 32) : fromBE (be32 n) = n :=
  fromBE_beBytes 4 n (by norm_num at h ⊢; omega)

theorem fromBE_be64 (n : Nat) (h : n < 2 ^ 64) : fromBE (be64 n) = n :=
  fromBE_beBytes 8 n (by norm_num at h ⊢; omega)

theorem length_be32 (n : Nat) : (be32 n).length = 4 := length_beBytes 4 n

theorem length_be64 (n : Nat) : (be64 n).length = 8 := length_beBytes 8 n

/-- The first container byte in key mode is the most significant byte of the
header length, so it stays below `0xFF` for realistic header sizes. -/
theorem be32_head (n : Nat) :
    (be32 n).head? = some (n / 2 ^ 24 % 256) := by
  show (beBytes 4 n).head? = _
  simp only [beBytes, List.nil_append]
  rw [List.head?_append, List.head?_append, List.head?_append]
  simp [Nat.div_div_eq_div_mul]

/-! ## Headers -/

/-- Modelled from the spec: the key-mode header
`KeyHeader{filename, key(32B), version, timestamp}`.  The filename is kept
as its byte sequence. -/
structure KeyHeader where
  filename : List Nat
  key : List Nat
  version : Nat
  timestamp : Nat
deriving DecidableEq, Repr

/-- Modelled from the spec: the password-mode header
`PasswordHeader{filename, salt(32B), kdf="argon2id", memory_cost, time_cost,
parallelism, version, timestamp}`.  The constant `kdf` discriminator is
carried by the tagged union itself. -/
structure PasswordHeader where
  filename : List Nat
  salt : List Nat
  memory_cost : Nat
  time_cost : Nat
  parallelism : Nat
  version : Nat
  timestamp : Nat
deriving DecidableEq, Repr

/-- Modelled from the spec: the tagged union `KeyHeader | PasswordHeader`. -/
inductive Header
  | keyH : KeyHeader → Header
  | pwH : PasswordHeader → Header
deriving DecidableEq, Repr

/-- A length-prefixed variable-size field: 4-byte big-endian length, then the
bytes themselves. -/
def fieldEnc (bs : List Nat) : List Nat := be32 bs.length ++ bs

/-- Modelled from the spec: the header serializer.  The backend stores the
header as JSON; the JSON text is abstracted into an injective binary encoding
(tag byte, then length-prefixed `filename` and `key`/`salt`, then fixed-width
u32 cost/version fields and a u64 timestamp), which preserves exactly the
fields the spec lists. -/
def serializeHeader : Header → List Nat
  | .keyH h =>
      0 :: (fieldEnc h.filename ++ fieldEnc h.key ++ be32 h.version ++ be64 h.timestamp)
  | .pwH h =>
      1 :: (fieldEnc h.filename ++ fieldEnc h.salt ++ be32 h.memory_cost ++
        be32 h.time_cost ++ be32 h.parallelism ++ be32 h.version ++ be64 h.timestamp)

/-- Read exactly `n` bytes, returning them and the remainder. -/
def readN (n : Nat) (l : List Nat) : Option (List Nat × List Nat) :=
  if n ≤ l.length then some (l.take n, l.drop n) else none

/-- Read a `w`-byte big-endian integer. -/
def readBE (w : Nat) (l : List Nat) : Option (Nat × List Nat) :=
  (readN w l).map (fun p => (fromBE p.1, p.2))

/-- Read a length-prefixed field. -/
def readField (l : List Nat) : Option (List Nat × List Nat) :=
  (readBE 4 l).bind (fun p => readN p.1 p.2)

/-- Modelled from the spec: the header deserializer (the JSON parser of the backend), inverse to `serializeHeader`; any byte sequence not produced by the
serializer that it cannot interpret yields `none` ("unparsable JSON"). -/
def parseHeader (l : List Nat) : Option Header :=
  match l with
  | 0 :: r =>
      (readField r).bind fun (fn, r) =>
      (readField r).bind fun (key, r) =>
      (readBE 4 r).bind fun (ver, r) =>
      (readBE 8 r).bind fun (ts, r) =>
      if r.isEmpty then some (.keyH ⟨fn, key, ver, ts⟩) else none
  | 1 :: r =>
      (readField r).bind fun (fn, r) =>
      (readField r).bind fun (salt, r) =>
      (readBE 4 r).bind fun (mc, r) =>
      (readBE 4 r).bind fun (tc, r) =>
      (readBE 4 r).bind fun (par, r) =>
      (readBE 4 r).bind fun (ver, r) =>
      (readBE 8 r).bind fun (ts, r) =>
      if r.isEmpty then some (.pwH ⟨fn, salt, mc, tc, par, ver, ts⟩) else none
  | _ => none

theorem readN_append (n : Nat) (bs r : List Nat) (h : bs.length = n) :
    readN n (bs ++ r) = some (bs, r) := by
  subst h
  simp [readN, List.take_left, List.drop_left]

theorem readBE_append (w n : Nat) (r : List Nat) (h : n < 256 ^ w) :
    readBE w (beBytes w n ++ r) = some (n, r) := by
  rw [readBE, readN_append w _ r (length_beBytes w n)]
  simp [fromBE_beBytes w n h]

theorem readBE_be32 (n : Nat) (r : List Nat) (h : n < 2 ^ 32) :
    readBE 4 (be32 n ++ r) = some (n, r) :=
  readBE_append 4 n r (by norm_num at h ⊢; omega)

theorem readBE_be64 (n : Nat) (r : List Nat) (h : n < 2 ^ 64) :
    readBE 8 (be64 n ++ r) = some (n, r) :=
  readBE_append 8 n r (by norm_num at h ⊢; omega)

theorem readField_append (bs r : List Nat) (h : bs.length < 2 ^ 32) :
    readField (fieldEnc bs ++ r) = some (bs, r) := by
  rw [readField, fieldEnc, List.append_assoc, readBE_be32 bs.length (bs ++ r) h]
  simp [readN_append bs.length bs r rfl]

/-- Well-formedness bounds on header fields: every variable-length field and
machine-width integer fits the width its encoding uses. -/
def HeaderWF : Header → Prop
  | .keyH h =>
      h.filename.length < 2 ^ 32 ∧ h.key.length < 2 ^ 32 ∧
      h.version < 2 ^ 32 ∧ h.timestamp < 2 ^ 64
  | .pwH h =>
      h.filename.length < 2 ^ 32 ∧ h.salt.length < 2 ^ 32 ∧
      h.memory_cost < 2 ^ 32 ∧ h.time_cost < 2 ^ 32 ∧ h.parallelism < 2 ^ 32 ∧
      h.version < 2 ^ 32 ∧ h.timestamp < 2 ^ 64

theorem parse_serializeHeader (h : Header) (hwf : HeaderWF h) :
    parseHeader (serializeHeader h) = some h := by
  cases h with
  | keyH h =>
    obtain ⟨h1, h2, h3, h4⟩ := hwf
    have hts : be64 h.timestamp = be64 h.timestamp ++ [] := by simp
    simp only [serializeHeader, parseHeader, List.append_assoc]
    rw [readField_append _ _ h1]
    simp only [Option.some_bind]
    rw [readField_append _ _ h2]
    simp only [Option.some_bind]
    rw [readBE_be32 _ _ h3]
    simp only [Option.some_bind]
    rw [hts, readBE_be64 _ _ h4]
    simp only [Option.some_bind]
    rfl
  | pwH h =>
    obtain ⟨h1, h2, h3, h4, h5, h6, h7⟩ := hwf
    have hts : be64 h.timestamp = be64 h.timestamp ++ [] := by simp
    simp only [serializeHeader, parseHeader, List.append_assoc]
    rw [readField_append _ _ h1]
    simp only [Option.some_bind]
    rw [readField_append _ _ h2]
    simp only [Option.some_bind]
    rw [readBE_be32 _ _ h3]
    simp only [Option.some_bind]
    rw [readBE_be32 _ _ h4]
    simp only [Option.some_bind]
    rw [readBE_be32 _ _ h5]
    simp only [Option.some_bind]
    rw [readBE_be32 _ _ h6]
    simp only [Option.some_bind]
    rw [hts, readBE_be64 _ _ h7]
    simp only [Option.some_bind]
    rfl

theorem length_serializeHeader_keyH (h : KeyHeader) :
    (serializeHeader (.keyH h)).length = 21 + h.filename.length + h.key.length := by
  simp [serializeHeader, fieldEnc, length_be32, length_be64]
  omega

theorem length_serializeHeader_pwH (h : PasswordHeader) :
    (serializeHeader (.pwH h)).length = 33 + h.filename.length + h.salt.length := by
  simp [serializeHeader, fieldEnc, length_be32, length_be64]
  omega

/-! ## CipherEngine -/

/-- One mixing step of the deterministic byte mixer. -/
def mixStep (a b : Nat) : Nat := (a * 131 + b + 17) % 65536

/-- Fold a byte list into the mixer state. -/
def mixList (l : List Nat) (seed : Nat) : Nat := l.foldl mixStep seed

/-- Modelled from the spec: the AES-256-GCM keystream byte at index `i`, a
deterministic function of key and nonce (the block-cipher internals are
abstracted; only determinism and stream shape are used). -/
def ksByte (key nonce : List Nat) (i : Nat) : Nat :=
  mixStep (mixList nonce (mixList key 7)) i % 256

/-- The first `n` keystream bytes for a key/nonce pair. -/
def keystream (key nonce : List Nat) (n : Nat) : List Nat :=
  (List.range n).map (ksByte key nonce)

/-- XOR a data stream against the keystream (both directions of AES-CTR). -/
def xorStream (key nonce data : List Nat) : List Nat :=
  List.zipWith Nat.xor data (keystream key nonce data.length)

/-- Modelled from the spec: the 16-byte GCM authentication tag, a
deterministic function of key, nonce and ciphertext. -/
def tagOf (key nonce ct : List Nat) : List Nat :=
  (List.range 16).map (fun i => mixStep (mixList ct (mixList nonce (mixList key i))) (i + 1) % 256)

/-- Modelled from the spec: `CipherEngine.seal(key, nonce, plaintext)`
returns ciphertext followed by the 16-byte authentication tag. -/
def sealAEAD (key nonce pt : List Nat) : List Nat :=
  xorStream key nonce pt ++ tagOf key nonce (xorStream key nonce pt)

/-- The tag verification condition of `openAEAD`: the input carries at least
a 16-byte tag and that tag matches the one recomputed over the ciphertext. -/
def tagVerifies (key nonce c : List Nat) : Prop :=
  16 ≤ c.length ∧ c.drop (c.length - 16) = tagOf key nonce (c.take (c.length - 16))

instance (key nonce c : List Nat) : Decidable (tagVerifies key nonce c) := by
  unfold tagVerifies
  infer_instance

/-- Modelled from the spec: `CipherEngine.open(key, nonce, ciphertext‖tag)`
recovers the plaintext, failing with `AuthenticationError` on tag mismatch —
wrong secret and tampered data produce the identical error. -/
def openAEAD (key nonce c : List Nat) : Except CryptoError (List Nat) :=
  if c.length < 16 then .error .AuthenticationError
  else if c.drop (c.length - 16) = tagOf key nonce (c.take (c.length - 16)) then
    .ok (xorStream key nonce (c.take (c.length - 16)))
  else .error .AuthenticationError

theorem length_keystream (key nonce : List Nat) (n : Nat) :
    (keystream key nonce n).length = n := by
  simp [keystream]

theorem length_xorStream (key nonce data : List Nat) :
    (xorStream key nonce data).length = data.length := by
  simp [xorStream, length_keystream]

theorem length_tagOf (key nonce ct : List Nat) :
    (tagOf key nonce ct).length = 16 := by
  simp [tagOf]

theorem length_sealAEAD (key nonce pt : List Nat) :
    (sealAEAD key nonce pt).length = pt.length + 16 := by
  simp [sealAEAD, length_xorStream, length_tagOf]

theorem zipWith_xor_cancel :
    ∀ (pt ks : List Nat), ks.length = pt.length →
      List.zipWith Nat.xor (List.zipWith Nat.xor pt ks) ks = pt := by
  intro pt
  induction pt with
  | nil => intro ks _; simp
  | cons a as ih =>
    intro ks hks
    cases ks with
    | nil => simp at hks
    | cons k kr =>
      simp only [List.zipWith_cons_cons, List.cons.injEq]
      refine ⟨?_, ih kr (by simpa using hks)⟩
      show a ^^^ k ^^^ k = a
      rw [Nat.xor_assoc, Nat.xor_self, Nat.xor_zero]

theorem xorStream_involutive (key nonce data : List Nat) :
    xorStream key nonce (xorStream key nonce data) = data := by
  rw [xorStream, length_xorStream, xorStream]
  exact zipWith_xor_cancel data (keystream key nonce data.length)
    (length_keystream key nonce data.length)

theorem openAEAD_sealAEAD (key nonce pt : List Nat) :
    openAEAD key nonce (sealAEAD key nonce pt) = .ok pt := by
  have hct : (sealAEAD key nonce pt).length = pt.length + 16 := length_sealAEAD key nonce pt
  have htake : (sealAEAD key nonce pt).take (pt.length + 16 - 16) = xorStream key nonce pt := by
    rw [sealAEAD]
    exact List.take_left' (length_xorStream key nonce pt ▸ by omega)
  have hdrop : (sealAEAD key nonce pt).drop (pt.length + 16 - 16) =
      tagOf key nonce (xorStream key nonce pt) := by
    rw [sealAEAD]
    exact List.drop_left' (length_xorStream key nonce pt ▸ by omega)
  rw [openAEAD]
  rw [if_neg (by omega)]
  simp only [hct, htake, hdrop, if_pos rfl]
  simp [xorStream_involutive]

/-! ## CompressionStage -/

/-- Length of the run of elements equal to `b` at the head of the list. -/
def runLen (b : Nat) : List Nat → Nat
  | [] => 0
  | a :: as => if a = b then runLen b as + 1 else 0

theorem runLen_le_length (b : Nat) (l : List Nat) : runLen b l ≤ l.length := by
  induction l with
  | nil => simp [runLen]
  | cons a as ih =>
    by_cases hab : a = b
    · simp only [runLen, if_pos hab, List.length_cons]
      omega
    · simp [runLen, hab]

theorem take_eq_replicate_of_le_runLen (b : Nat) :
    ∀ (n : Nat) (l : List Nat), n ≤ runLen b l → l.take n = List.replicate n b := by
  intro n
  induction n with
  | zero => intro l _; simp
  | succ n ih =>
    intro l hn
    cases l with
    | nil => simp [runLen] at hn
    | cons a as =>
      by_cases hab : a = b
      · subst hab
        have hn2 : n ≤ runLen a as := by
          simp [runLen] at hn
          omega
        simp [List.replicate_succ, List.take_succ_cons, ih as hn2]
      · simp [runLen, hab] at hn

/-- Fuelled worker for `compress`; the fuel is an upper bound on the input
length, so the recursion is structural and the function reduces in the
kernel. -/
def compressAux : Nat → List Nat → List Nat
  | _, [] => []
  | 0, _ :: _ => []
  | fuel + 1, b :: rest =>
      (min (runLen b rest) 254 + 1) :: b ::
        compressAux fuel (rest.drop (min (runLen b rest) 254))

/-- Modelled from the spec: `CompressionStage.compress`, a deterministic
lossless codec (zstd in the backend) abstracted as run-length coding with
runs capped at 255 so every emitted count fits one byte.  Only determinism,
losslessness and the fact that lengths change are used. -/
def compress (l : List Nat) : List Nat := compressAux l.length l

/-- Modelled from the spec: `CompressionStage.decompress`, inverse to
`compress`. -/
def decompress : List Nat → List Nat
  | n :: b :: rest => List.replicate n b ++ decompress rest
  | _ => []

theorem decompress_compressAux :
    ∀ (fuel : Nat) (l : List Nat), l.length ≤ fuel →
      decompress (compressAux fuel l) = l := by
  intro fuel
  induction fuel with
  | zero =>
    intro l h
    cases l with
    | nil => rfl
    | cons b rest => simp at h
  | succ f ih =>
    intro l h
    cases l with
    | nil => rfl
    | cons b rest =>
      rw [compressAux, decompress]
      rw [ih (rest.drop (min (runLen b rest) 254))
        (by simp only [List.length_drop]; simp only [List.length_cons] at h; omega)]
      have hrun : rest.take (min (runLen b rest) 254) =
          List.replicate (min (runLen b rest) 254) b :=
        take_eq_replicate_of_le_runLen b _ rest (by omega)
      rw [List.replicate_succ, List.cons_append, ← hrun, List.take_append_drop]

theorem decompress_compress (l : List Nat) : decompress (compress l) = l :=
  decompress_compressAux l.length l (le_refl _)

/-! ## FormatCodec -/

/-- Modelled from the spec: `FormatCodec.encode(mode, header, nonce,
ciphertext)` — if mode is password, prepend `0xFF`; then the 4-byte
big-endian header length, the header bytes, the 12-byte nonce and the
ciphertext-with-tag, nothing else. -/
def encode (m : Mode) (headerBytes nonce ct : List Nat) : List Nat :=
  (if m = Mode.password then [255] else []) ++
    be32 headerBytes.length ++ headerBytes ++ nonce ++ ct

/-- Shared body of `decode` once the marker byte is consumed in password
mode (or absent in key mode): length checks, header slice, nonce, ciphertext. -/
def decodeBody (m : Mode) (body : List Nat) :
    Except CryptoError (Mode × List Nat × List Nat × List Nat) :=
  if body.length < 4 + 12 + 16 then .error .FormatError
  else if (body.drop 4).length < fromBE (body.take 4) + 12 + 16 then .error .FormatError
  else if (parseHeader ((body.drop 4).take (fromBE (body.take 4)))).isSome then
    .ok (m, (body.drop 4).take (fromBE (body.take 4)),
      ((body.drop 4).drop (fromBE (body.take 4))).take 12,
      ((body.drop 4).drop (fromBE (body.take 4))).drop 12)
  else .error .FormatError

/-- Modelled from the spec: `FormatCodec.decode` — the mode is selected
purely from the first byte (`0xFF` means password mode and shifts the length
field by one byte); truncation, an oversized declared header length, or an
unparsable header all fail with `FormatError`. -/
def decode (data : List Nat) :
    Except CryptoError (Mode × List Nat × List Nat × List Nat) :=
  if data.head? = some 255 then decodeBody Mode.password data.tail
  else decodeBody Mode.keyMode data

theorem decodeBody_encodeTail (m : Mode) (hb nonce ct : List Nat)
    (hhb : (parseHeader hb).isSome) (hlen32 : hb.length < 2 ^ 32)
    (hn : nonce.length = 12) (hct : 16 ≤ ct.length) :
    decodeBody m (be32 hb.length ++ hb ++ nonce ++ ct) = .ok (m, hb, nonce, ct) := by
  have hbody : (be32 hb.length ++ hb ++ nonce ++ ct).length =
      4 + hb.length + 12 + ct.length := by
    simp [length_be32, hn]
    omega
  have htake4 : (be32 hb.length ++ hb ++ nonce ++ ct).take 4 = be32 hb.length := by
    rw [List.append_assoc, List.append_assoc]
    exact List.take_left' (length_be32 hb.length)
  have hdrop4 : (be32 hb.length ++ hb ++ nonce ++ ct).drop 4 = hb ++ nonce ++ ct := by
    rw [List.append_assoc, List.append_assoc]
    rw [List.drop_left' (length_be32 hb.length)]
    rw [List.append_assoc]
  have htakehb : (hb ++ nonce ++ ct).take hb.length = hb := by
    rw [List.append_assoc]
    exact List.take_left' rfl
  have hdrophb : (hb ++ nonce ++ ct).drop hb.length = nonce ++ ct := by
    rw [List.append_assoc]
    exact List.drop_left' rfl
  rw [decodeBody]
  rw [if_neg (by omega)]
  simp only [htake4, fromBE_be32 hb.length hlen32, hdrop4]
  rw [if_neg (by simp [hn]; omega)]
  simp only [htakehb, hdrophb, hhb, if_pos]
  rw [List.take_left' hn, List.drop_left' hn]

theorem decode_encode (m : Mode) (hb nonce ct : List Nat)
    (hhb : (parseHeader hb).isSome) (hsmall : hb.length < 255 * 2 ^ 24)
    (hn : nonce.length = 12) (hct : 16 ≤ ct.length) :
    decode (encode m hb nonce ct) = .ok (m, hb, nonce, ct) := by
  have hlen32 : hb.length < 2 ^ 32 := by omega
  cases m with
  | password =>
    have henc : (if Mode.password = Mode.password then [255] else ([] : List Nat)) = [255] := rfl
    rw [encode, henc]
    rw [decode]
    rw [if_pos (by simp)]
    have htail : ([255] ++ be32 hb.length ++ hb ++ nonce ++ ct).tail =
        be32 hb.length ++ hb ++ nonce ++ ct := by
      simp
    rw [htail]
    exact decodeBody_encodeTail _ hb nonce ct hhb hlen32 hn hct
  | keyMode =>
    have henc : (if Mode.keyMode = Mode.password then [255] else ([] : List Nat)) = [] := rfl
    rw [encode, henc, List.nil_append]
    rw [decode]
    have hhead : (be32 hb.length ++ hb ++ nonce ++ ct).head? = some (hb.length / 2 ^ 24 % 256) := by
      rw [List.append_assoc, List.append_assoc, List.head?_append, be32_head]
      rfl
    have hne : (be32 hb.length ++ hb ++ nonce ++ ct).head? ≠ some 255 := by
      rw [hhead]
      have : hb.length / 2 ^ 24 < 255 := by
        apply Nat.div_lt_of_lt_mul
        omega
      simp
      omega
    rw [if_neg hne]
    exact decodeBody_encodeTail _ hb nonce ct hhb hlen32 hn hct

/-! ## KeyMaterialProvider -/

/-- Argon2 memory-cost floor (KB), from the backend configuration constants. -/
def ARGON2_MEMORY_COST : Nat := 65536

/-- Argon2 time-cost floor (iterations), from the backend configuration. -/
def ARGON2_TIME_COST : Nat := 3

/-- Argon2 parallelism, from the backend configuration. -/
def ARGON2_PARALLELISM : Nat := 1

/-- Key-mode header format version (DOCS.md example). -/
def VERSION_KEY : Nat := 2

/-- Password-mode header format version (DOCS.md example). -/
def VERSION_PW : Nat := 3

/-- Modelled from the spec: Argon2id key derivation — a deterministic
32-byte function of password, salt and the three cost parameters (the
memory-hard internals are abstracted; only determinism and output size are
used). -/
def argon2id (password salt : List Nat) (mc tc par : Nat) : List Nat :=
  (List.range 32).map
    (fun i => mixStep (mixList password (mixList salt (mc * 31 + tc * 7 + par * 3 + i))) i % 256)

theorem length_argon2id (password salt : List Nat) (mc tc par : Nat) :
    (argon2id password salt mc tc par).length = 32 := by
  simp [argon2id]

/-- The KDF floor check: header cost parameters must not fall below the
configured minimum. -/
def argon2ParamsOk (ph : PasswordHeader) : Prop :=
  ARGON2_MEMORY_COST ≤ ph.memory_cost ∧ ARGON2_TIME_COST ≤ ph.time_cost

instance (ph : PasswordHeader) : Decidable (argon2ParamsOk ph) := by
  unfold argon2ParamsOk
  infer_instance

/-- Modelled from the spec: the password branch of
`KeyMaterialProvider.resolve`.  The first component is the resolution
result; the second records whether Argon2id derivation was actually run, so
that "rejected before derivation" is observable in the model.  A header
whose cost parameters fall below the floor is rejected with
`ValidationError` and the derivation flag stays `false`. -/
def resolvePasswordKey (password : List Nat) (ph : PasswordHeader) :
    Except CryptoError (List Nat) × Bool :=
  if argon2ParamsOk ph then
    (.ok (argon2id password ph.salt ph.memory_cost ph.time_cost ph.parallelism), true)
  else (.error .ValidationError, false)

/-! ## EncryptionPipeline -/

/-- The caller-supplied secret: a raw 32-byte key or a password. -/
inductive Secret
  | rawKey : List Nat → Secret
  | pw : List Nat → Secret
deriving DecidableEq, Repr

/-- Modelled from the spec: `encrypt(bytes, filename, secret)`.  Compresses
the plaintext, resolves the key (validating the length of a raw key, or deriving
from the password with the configured Argon2 parameters), seals with
AES-256-GCM, builds the header and encodes the container.  The fresh random
nonce and salt are passed as explicit arguments, standing for the CSPRNG
draws of the backend. -/
def encrypt (plain filename : List Nat) (s : Secret) (nonce salt : List Nat)
    (timestamp : Nat) : Except CryptoError (List Nat) :=
  match s with
  | .rawKey k =>
      if k.length ≠ 32 then .error .ValidationError
      else
        let hb := serializeHeader (.keyH ⟨filename, k, VERSION_KEY, timestamp⟩)
        .ok (encode .keyMode hb nonce (sealAEAD k nonce (compress plain)))
  | .pw password =>
      let k := argon2id password salt ARGON2_MEMORY_COST ARGON2_TIME_COST ARGON2_PARALLELISM
      let hb := serializeHeader (.pwH ⟨filename, salt, ARGON2_MEMORY_COST,
        ARGON2_TIME_COST, ARGON2_PARALLELISM, VERSION_PW, timestamp⟩)
      .ok (encode .password hb nonce (sealAEAD k nonce (compress plain)))

/-- Modelled from the spec: `decrypt(bytes, secret)`.  Decodes the container
(mode auto-detected from the leading byte), parses the header, resolves the
key — the embedded header key in key mode, Argon2id re-derivation after the
floor check in password mode — opens the AEAD and decompresses.  Supplying a
password for a key-mode container, or no password for a password-mode
container, is rejected deterministically with `ValidationError` (the
responses of the backend for "not encrypted with a password" and
"a password is required"); a header of the wrong shape for the detected mode is a
`FormatError`. -/
def decrypt (data : List Nat) (s : Option Secret) :
    Except CryptoError (List Nat × List Nat) :=
  (decode data).bind fun (m, hb, nonce, ct) =>
    match parseHeader hb with
    | none => .error .FormatError
    | some h =>
      match m with
      | .keyMode =>
        match s with
        | some (.pw _) => .error .ValidationError
        | _ =>
          match h with
          | .keyH kh =>
            if kh.key.length ≠ 32 then .error .ValidationError
            else (openAEAD kh.key nonce ct).bind fun pt =>
              .ok (decompress pt, kh.filename)
          | .pwH _ => .error .FormatError
      | .password =>
        match s with
        | some (.pw password) =>
          match h with
          | .pwH ph =>
            match (resolvePasswordKey password ph).1 with
            | .error e => .error e
            | .ok k =>
              (openAEAD k nonce ct).bind fun pt =>
                .ok (decompress pt, ph.filename)
          | .keyH _ => .error .FormatError
        | _ => .error .ValidationError

theorem except_bind_ok {e a b : Type} (x : a) (f : a → Except e b) :
    (Except.ok (ε := e) x).bind f = f x := rfl

/-- Key-mode decryption of a well-formed sealed container built from header
`kh`, when the embedded key has the right length. -/
theorem decrypt_encode_keyH (P : List Nat) (kh : KeyHeader) (nonce : List Nat)
    (s : Option Secret) (hwf : HeaderWF (.keyH kh))
    (hsmall : (serializeHeader (.keyH kh)).length < 255 * 2 ^ 24)
    (hnonce : nonce.length = 12) (hk : kh.key.length = 32)
    (hs : ∀ p, s ≠ some (.pw p)) :
    decrypt (encode .keyMode (serializeHeader (.keyH kh)) nonce
      (sealAEAD kh.key nonce (compress P))) s = .ok (P, kh.filename) := by
  have hparse : parseHeader (serializeHeader (.keyH kh)) = some (.keyH kh) :=
    parse_serializeHeader _ hwf
  have hdec := decode_encode Mode.keyMode (serializeHeader (.keyH kh)) nonce
    (sealAEAD kh.key nonce (compress P)) (by simp [hparse]) hsmall hnonce
    (by rw [length_sealAEAD]; omega)
  rw [decrypt, hdec, except_bind_ok]
  simp only [hparse]
  match s, hs with
  | none, _ =>
    show (if kh.key.length ≠ 32 then _ else _) = _
    rw [if_neg (by omega), openAEAD_sealAEAD, except_bind_ok, decompress_compress]
  | some (.rawKey k), _ =>
    show (if kh.key.length ≠ 32 then _ else _) = _
    rw [if_neg (by omega), openAEAD_sealAEAD, except_bind_ok, decompress_compress]
  | some (.pw p), hs => exact absurd rfl (hs p)

/-- Password-mode decryption of a well-formed sealed container built with the
configured Argon2 parameters of the backend. -/
theorem decrypt_encode_pwH (P password : List Nat) (ph : PasswordHeader)
    (nonce : List Nat) (hwf : HeaderWF (.pwH ph))
    (hsmall : (serializeHeader (.pwH ph)).length < 255 * 2 ^ 24)
    (hnonce : nonce.length = 12) (hok : argon2ParamsOk ph) :
    decrypt (encode .password (serializeHeader (.pwH ph)) nonce
      (sealAEAD (argon2id password ph.salt ph.memory_cost ph.time_cost ph.parallelism)
        nonce (compress P))) (some (.pw password)) = .ok (P, ph.filename) := by
  have hparse : parseHeader (serializeHeader (.pwH ph)) = some (.pwH ph) :=
    parse_serializeHeader _ hwf
  have hdec := decode_encode Mode.password (serializeHeader (.pwH ph)) nonce
    (sealAEAD (argon2id password ph.salt ph.memory_cost ph.time_cost ph.parallelism)
      nonce (compress P)) (by simp [hparse]) hsmall hnonce
    (by rw [length_sealAEAD]; omega)
  rw [decrypt, hdec, except_bind_ok]
  simp only [hparse]
  show (match (resolvePasswordKey password ph).1 with
    | .error e => Except.error e
    | .ok k => (openAEAD k nonce _).bind fun pt => .ok (decompress pt, ph.filename)) = _
  rw [resolvePasswordKey, if_pos hok]
  show (openAEAD _ nonce _).bind _ = _
  rw [openAEAD_sealAEAD, except_bind_ok, decompress_compress]

/-- C1: for every byte sequence `P`, filename `name` and matching secret `S`
(raw 32-byte key or password), decrypting the container produced by
`encrypt P name S` with the same secret returns exactly `(P, name)`.  The
fresh nonce and salt drawn by the backend CSPRNG appear as explicit
arguments with their generated sizes; filename and timestamp are bounded by
the widths their header encoding uses. -/
theorem C1_encrypt_decrypt_roundtrip (P name : List Nat) (s : Secret)
    (nonce salt : List Nat) (ts : Nat)
    (hnonce : nonce.length = 12) (hsalt : salt.length = 32)
    (hname : name.length < 2 ^ 24) (hts : ts < 2 ^ 64)
    (hkey : ∀ k, s = .rawKey k → k.length = 32) :
    ∃ c, encrypt P name s nonce salt ts = .ok c ∧
      decrypt c (some s) = .ok (P, name) := by
  cases s with
  | rawKey k =>
    have hk := hkey k rfl
    simp only [encrypt]
    rw [if_neg (by omega)]
    refine ⟨_, rfl, ?_⟩
    exact decrypt_encode_keyH P ⟨name, k, VERSION_KEY, ts⟩ nonce _
      ⟨(by omega : name.length < 2 ^ 32), (by omega : k.length < 2 ^ 32),
        by norm_num [VERSION_KEY], hts⟩
      (by rw [length_serializeHeader_keyH]; simp only []; omega)
      hnonce hk (fun p => by simp)
  | pw password =>
    simp only [encrypt]
    refine ⟨_, rfl, ?_⟩
    exact decrypt_encode_pwH P password
      ⟨name, salt, ARGON2_MEMORY_COST, ARGON2_TIME_COST, ARGON2_PARALLELISM, VERSION_PW, ts⟩
      nonce
      ⟨(by omega : name.length < 2 ^ 32), (by omega : salt.length < 2 ^ 32),
        by norm_num [ARGON2_MEMORY_COST], by norm_num [ARGON2_TIME_COST],
        by norm_num [ARGON2_PARALLELISM], by norm_num [VERSION_PW], hts⟩
      (by rw [length_serializeHeader_pwH]; simp only []; omega)
      hnonce ⟨le_refl _, le_refl _⟩

/-- Concrete instance of C1: a two-byte plaintext, one-byte filename and the
key `0,…,31` round-trip through the pipeline. -/
theorem C1_witness :
    ∃ c, encrypt [104, 105] [97] (.rawKey (List.range 32))
        (List.replicate 12 0) (List.replicate 32 0) 0 = .ok c ∧
      decrypt c (some (.rawKey (List.range 32))) = .ok ([104, 105], [97]) :=
  C1_encrypt_decrypt_roundtrip [104, 105] [97] (.rawKey (List.range 32))
    (List.replicate 12 0) (List.replicate 32 0) 0
    (by simp) (by simp) (by norm_num) (by norm_num)
    (fun k hk => by cases hk; simp)

instance exceptDecEq {e a : Type} [DecidableEq e] [DecidableEq a] :
    DecidableEq (Except e a) := fun x y =>
  match x, y with
  | .ok x, .ok y => if h : x = y then isTrue (by rw [h]) else isFalse (by simp [h])
  | .error x, .error y => if h : x = y then isTrue (by rw [h]) else isFalse (by simp [h])
  | .ok _, .error _ => isFalse (by simp)
  | .error _, .ok _ => isFalse (by simp)

/-- Every failing `openAEAD` call yields the single `AuthenticationError`
value, regardless of the cause. -/
theorem openAEAD_error_eq (key nonce c : List Nat) (e : CryptoError)
    (h : openAEAD key nonce c = .error e) : e = .AuthenticationError := by
  rw [openAEAD] at h
  split_ifs at h with h1 h2
  all_goals injection h with hx
  all_goals exact hx.symm

/-- C2: `CipherEngine.open` fails exactly when the authentication tag does
not verify; every failure carries the single `AuthenticationError` value, so
a wrong secret and tampered data are indistinguishable from the error alone
(the function is total, so no input crashes). -/
theorem C2_open_authentication (key nonce c : List Nat) :
    ((∃ pt, openAEAD key nonce c = .ok pt) ↔ tagVerifies key nonce c)
    ∧ (∀ e, openAEAD key nonce c = .error e → e = CryptoError.AuthenticationError)
    ∧ (∀ key2 nonce2 c2 e e2, openAEAD key nonce c = .error e →
        openAEAD key2 nonce2 c2 = .error e2 → e = e2) := by
  refine ⟨⟨?_, ?_⟩, openAEAD_error_eq key nonce c, ?_⟩
  · rintro ⟨pt, hpt⟩
    rw [openAEAD] at hpt
    by_cases h16 : c.length < 16
    · rw [if_pos h16] at hpt
      simp at hpt
    · rw [if_neg h16] at hpt
      by_cases htag : c.drop (c.length - 16) = tagOf key nonce (c.take (c.length - 16))
      · exact ⟨by omega, htag⟩
      · rw [if_neg htag] at hpt
        simp at hpt
  · rintro ⟨h16, htag⟩
    refine ⟨xorStream key nonce (c.take (c.length - 16)), ?_⟩
    rw [openAEAD, if_neg (by omega), if_pos htag]
  · intro key2 nonce2 c2 e e2 he he2
    rw [openAEAD_error_eq key nonce c e he, openAEAD_error_eq key2 nonce2 c2 e2 he2]

set_option maxRecDepth 16384 in
/-- Closed instance of C2: the all-zero 16-byte input fails tag
verification under the sample key, and two distinct failing calls produce
the identical error value. -/
theorem C2_witness :
    openAEAD (List.range 32) (List.replicate 12 0) (List.replicate 16 0) =
      .error CryptoError.AuthenticationError ∧
    ¬ tagVerifies (List.range 32) (List.replicate 12 0) (List.replicate 16 0) := by
  have h := C2_open_authentication (List.range 32) (List.replicate 12 0) (List.replicate 16 0)
  have hfail : openAEAD (List.range 32) (List.replicate 12 0) (List.replicate 16 0) =
      .error CryptoError.AuthenticationError := by decide
  refine ⟨hfail, fun hv => ?_⟩
  obtain ⟨pt, hpt⟩ := h.1.mpr hv
  rw [hfail] at hpt
  simp at hpt

/-- Inversion for `decodeBody`: a successful decode returns the mode it was
given, the header slice at the documented offset, and a parsable header. -/
theorem decodeBody_ok_inv (m0 m : Mode) (body hb nonce ct : List Nat)
    (h : decodeBody m0 body = .ok (m, hb, nonce, ct)) :
    m = m0 ∧ hb = (body.drop 4).take (fromBE (body.take 4)) ∧
      (parseHeader hb).isSome := by
  rw [decodeBody] at h
  split_ifs at h with h1 h2 h3
  all_goals cases h
  exact ⟨rfl, rfl, h3⟩

/-- Inversion for `decode`: the mode is determined by the leading byte, the
header bytes are cut at the documented offset (shifted by the marker in
password mode), and the header parses. -/
theorem decode_ok_inv (d : List Nat) (m : Mode) (hb nonce ct : List Nat)
    (h : decode d = .ok (m, hb, nonce, ct)) :
    (m = Mode.password ↔ d.head? = some 255)
    ∧ (d.head? = some 255 → hb = (d.tail.drop 4).take (fromBE (d.tail.take 4)))
    ∧ (d.head? ≠ some 255 → hb = (d.drop 4).take (fromBE (d.take 4)))
    ∧ (parseHeader hb).isSome := by
  rw [decode] at h
  by_cases hhead : d.head? = some 255
  · rw [if_pos hhead] at h
    obtain ⟨hm, hhb, hp⟩ := decodeBody_ok_inv _ _ _ _ _ _ h
    exact ⟨by simp [hm, hhead], fun _ => hhb, fun hc => absurd hhead hc, hp⟩
  · rw [if_neg hhead] at h
    obtain ⟨hm, hhb, hp⟩ := decodeBody_ok_inv _ _ _ _ _ _ h
    refine ⟨?_, fun hc => absurd hc hhead, fun _ => hhb, hp⟩
    rw [hm]
    simp [hhead]

/-- Decrypting a key-mode container while supplying a password is rejected
deterministically with `ValidationError` (the response of the backend that
the file was not encrypted with a password). -/
theorem decrypt_keyMode_with_password (d : List Nat) (hb nonce ct p : List Nat)
    (h : decode d = .ok (Mode.keyMode, hb, nonce, ct)) :
    decrypt d (some (.pw p)) = .error .ValidationError := by
  obtain ⟨h0, hparse⟩ := Option.isSome_iff_exists.mp (decode_ok_inv _ _ _ _ _ h).2.2.2
  rw [decrypt, h, except_bind_ok]
  simp only [hparse]

/-- Decrypting a password-mode container without supplying a password is
rejected deterministically with `ValidationError` (the response of the
backend that a password is required). -/
theorem decrypt_password_without_password (d : List Nat) (hb nonce ct : List Nat)
    (s : Option Secret) (h : decode d = .ok (Mode.password, hb, nonce, ct))
    (hs : ∀ p, s ≠ some (.pw p)) :
    decrypt d s = .error .ValidationError := by
  obtain ⟨h0, hparse⟩ := Option.isSome_iff_exists.mp (decode_ok_inv _ _ _ _ _ h).2.2.2
  rw [decrypt, h, except_bind_ok]
  match s, hs with
  | none, _ => simp only [hparse]
  | some (.rawKey k), _ => simp only [hparse]
  | some (.pw p), hs2 => exact absurd rfl (hs2 p)

/-- C3: `decode` selects the mode purely from the first byte — `0xFF` means
password mode with the 4-byte length field read from offset 1, anything else
means key mode with the length field at offset 0 — and supplying the wrong
secret kind to `decrypt` yields the deterministic `ValidationError` (the
functions are total, so no input crashes). -/
theorem C3_mode_autodetection (d : List Nat) (m : Mode) (hb nonce ct : List Nat)
    (h : decode d = .ok (m, hb, nonce, ct)) :
    (m = Mode.password ↔ d.head? = some 255)
    ∧ (m = Mode.password → hb = (d.tail.drop 4).take (fromBE (d.tail.take 4)))
    ∧ (m = Mode.keyMode → hb = (d.drop 4).take (fromBE (d.take 4)))
    ∧ (∀ p, m = Mode.keyMode → decrypt d (some (.pw p)) = .error .ValidationError)
    ∧ (∀ s, m = Mode.password → (∀ p, s ≠ some (.pw p)) →
        decrypt d s = .error .ValidationError) := by
  obtain ⟨hiff, hpw, hkey, hp⟩ := decode_ok_inv _ _ _ _ _ h
  refine ⟨hiff, fun hm => hpw (hiff.mp hm), fun hm => ?_, fun p hm => ?_, fun s hm hs => ?_⟩
  · refine hkey ?_
    intro hc
    rw [hiff.mpr hc] at hm
    cases hm
  · rw [hm] at h
    exact decrypt_keyMode_with_password d hb nonce ct p h
  · rw [hm] at h
    exact decrypt_password_without_password d hb nonce ct s h hs

/-- Concrete instance of C3: a password-mode container is detected from its
leading `0xFF` byte, and decrypting it with a raw key instead of a password
fails with the deterministic `ValidationError`. -/
theorem C3_witness :
    (Mode.password = Mode.password ↔
      (encode .password (serializeHeader (.pwH ⟨[97], List.replicate 32 0, 65536, 3, 1, 3, 0⟩))
        (List.replicate 12 0) (List.replicate 16 0)).head? = some 255)
    ∧ decrypt (encode .password (serializeHeader (.pwH ⟨[97], List.replicate 32 0, 65536, 3, 1, 3, 0⟩))
        (List.replicate 12 0) (List.replicate 16 0)) (some (.rawKey (List.range 32))) =
      .error .ValidationError := by
  have hdec : decode (encode .password
      (serializeHeader (.pwH ⟨[97], List.replicate 32 0, 65536, 3, 1, 3, 0⟩))
      (List.replicate 12 0) (List.replicate 16 0)) =
      .ok (Mode.password, serializeHeader (.pwH ⟨[97], List.replicate 32 0, 65536, 3, 1, 3, 0⟩),
        List.replicate 12 0, List.replicate 16 0) :=
    decode_encode _ _ _ _ (by decide) (by decide) (by decide) (by decide)
  have h := C3_mode_autodetection _ _ _ _ _ hdec
  exact ⟨h.1, h.2.2.2.2 (some (.rawKey (List.range 32))) rfl (fun p => by simp)⟩

/-- C4: a password-mode header whose `memory_cost` or `time_cost` falls
below the configured floor is rejected by the key-material provider with
`ValidationError`, and the Argon2id derivation flag stays `false` — the
rejection happens before derivation is ever run on the parameters of that
header. -/
theorem C4_kdf_floor_enforcement (password : List Nat) (ph : PasswordHeader)
    (h : ph.memory_cost < ARGON2_MEMORY_COST ∨ ph.time_cost < ARGON2_TIME_COST) :
    resolvePasswordKey password ph = (.error .ValidationError, false) := by
  have hnot : ¬ argon2ParamsOk ph := by
    rintro ⟨h1, h2⟩
    rcases h with h | h
    · omega
    · omega
  rw [resolvePasswordKey, if_neg hnot]

/-- Concrete instance of C4: a header declaring zero memory cost is rejected
without running derivation. -/
theorem C4_witness :
    resolvePasswordKey [112, 119] ⟨[97], List.replicate 32 0, 0, 3, 1, 3, 0⟩ =
      (.error .ValidationError, false) :=
  C4_kdf_floor_enforcement [112, 119] ⟨[97], List.replicate 32 0, 0, 3, 1, 3, 0⟩
    (Or.inl (by norm_num [ARGON2_MEMORY_COST]))

theorem drop_add (l : List Nat) (m n : Nat) :
    l.drop (m + n) = (l.drop m).drop n := by
  rw [List.drop_drop, Nat.add_comm]

/-- Slicing the marker-free tail of an encoded container recovers each field
at its documented offset. -/
theorem encodeTail_slices (hb nonce ct : List Nat) (hlen : hb.length < 2 ^ 32) :
    (be32 hb.length ++ hb ++ nonce ++ ct).length = 4 + hb.length + nonce.length + ct.length
    ∧ fromBE ((be32 hb.length ++ hb ++ nonce ++ ct).take 4) = hb.length
    ∧ ((be32 hb.length ++ hb ++ nonce ++ ct).drop 4).take hb.length = hb
    ∧ ((be32 hb.length ++ hb ++ nonce ++ ct).drop (4 + hb.length)).take nonce.length = nonce
    ∧ (be32 hb.length ++ hb ++ nonce ++ ct).drop (4 + hb.length + nonce.length) = ct := by
  have htake4 : (be32 hb.length ++ hb ++ nonce ++ ct).take 4 = be32 hb.length := by
    rw [List.append_assoc, List.append_assoc]
    exact List.take_left' (length_be32 hb.length)
  have hdrop4 : (be32 hb.length ++ hb ++ nonce ++ ct).drop 4 = hb ++ nonce ++ ct := by
    rw [List.append_assoc, List.append_assoc, List.drop_left' (length_be32 hb.length),
      List.append_assoc]
  have hdrophb : (hb ++ nonce ++ ct).drop hb.length = nonce ++ ct := by
    rw [List.append_assoc]
    exact List.drop_left' rfl
  refine ⟨?_, ?_, ?_, ?_, ?_⟩
  · simp [length_be32]
    omega
  · rw [htake4, fromBE_be32 hb.length hlen]
  · rw [hdrop4, List.append_assoc]
    exact List.take_left' rfl
  · rw [drop_add, hdrop4, hdrophb]
    exact List.take_left' rfl
  · rw [drop_add, drop_add, hdrop4, hdrophb]
    exact List.drop_left' rfl

/-- C5: `FormatCodec.encode` produces exactly the documented byte layout —
a single `0xFF` marker byte present iff the mode is password, then the
header length as 4 big-endian bytes, the header bytes, the nonce bytes and
the ciphertext-with-tag bytes, with nothing else: the total length is the
sum of the parts and every field is recovered by slicing at its offset. -/
theorem C5_encode_layout (m : Mode) (hb nonce ct : List Nat)
    (hlen : hb.length < 2 ^ 32) :
    (encode m hb nonce ct).length =
      (if m = Mode.password then 1 else 0) + 4 + hb.length + nonce.length + ct.length
    ∧ (encode m hb nonce ct).take (if m = Mode.password then 1 else 0) =
        (if m = Mode.password then [255] else [])
    ∧ fromBE (((encode m hb nonce ct).drop (if m = Mode.password then 1 else 0)).take 4) =
        hb.length
    ∧ (((encode m hb nonce ct).drop (if m = Mode.password then 1 else 0)).drop 4).take
        hb.length = hb
    ∧ (((encode m hb nonce ct).drop (if m = Mode.password then 1 else 0)).drop
        (4 + hb.length)).take nonce.length = nonce
    ∧ ((encode m hb nonce ct).drop (if m = Mode.password then 1 else 0)).drop
        (4 + hb.length + nonce.length) = ct := by
  obtain ⟨hl, hf, hhb, hnn, hcc⟩ := encodeTail_slices hb nonce ct hlen
  cases m with
  | password =>
    have henc : encode Mode.password hb nonce ct =
        255 :: (be32 hb.length ++ hb ++ nonce ++ ct) := by
      rw [encode]
      rfl
    refine ⟨?_, ?_, ?_, ?_, ?_, ?_⟩ <;>
      simp only [henc, reduceIte, List.length_cons, List.drop_succ_cons,
        List.drop_zero, List.take_succ_cons, List.take_zero]
    · rw [hl]
      omega
    · exact hf
    · exact hhb
    · exact hnn
    · exact hcc
  | keyMode =>
    have henc : encode Mode.keyMode hb nonce ct = be32 hb.length ++ hb ++ nonce ++ ct := by
      rw [encode]
      rfl
    refine ⟨?_, ?_, ?_, ?_, ?_, ?_⟩ <;>
      simp only [henc, reduceIte, List.drop_zero, List.take_zero]
    · rw [hl]
      rfl
    · rfl
    · exact hf
    · exact hhb
    · exact hnn
    · exact hcc

/-- Concrete instance of C5: the layout equations evaluated on a small
password-mode container. -/
theorem C5_witness :
    (encode Mode.password [7, 8] [1, 2, 3] [4, 5]).length = 1 + 4 + 2 + 3 + 2
    ∧ ((encode Mode.password [7, 8] [1, 2, 3] [4, 5]).drop (1 + 4)).take 2 = [7, 8] := by
  have h := C5_encode_layout Mode.password [7, 8] [1, 2, 3] [4, 5] (by norm_num)
  refine ⟨h.1, ?_⟩
  have h4 := h.2.2.2.1
  simp only [reduceIte] at h4
  rw [drop_add]
  exact h4

/-- Number of marker bytes at the front of a container (1 iff the leading
byte is `0xFF`). -/
def markerLen (d : List Nat) : Nat := if d.head? = some 255 then 1 else 0

/-- The container with its optional mode marker removed. -/
def stripMarker (d : List Nat) : List Nat := if d.head? = some 255 then d.tail else d

/-- The header length declared by the 4-byte big-endian field after the
optional marker. -/
def declaredHeaderLen (d : List Nat) : Nat := fromBE ((stripMarker d).take 4)

/-- The header bytes cut out of the container at the declared length. -/
def headerSlice (d : List Nat) : List Nat :=
  ((stripMarker d).drop 4).take (declaredHeaderLen d)

/-- The three decode-failure causes the spec names: total length below the
minimum `marker? + 4 + header_len + 12 + 16`, a declared header length
exceeding the bytes remaining after the length field, or unparsable header
bytes. -/
def decodeFails (d : List Nat) : Prop :=
  d.length < markerLen d + 4 + declaredHeaderLen d + 12 + 16
  ∨ (stripMarker d).length - 4 < declaredHeaderLen d
  ∨ (parseHeader (headerSlice d)).isSome = false

instance (d : List Nat) : Decidable (decodeFails d) := by
  unfold decodeFails
  infer_instance

theorem length_stripMarker (d : List Nat) :
    d.length = markerLen d + (stripMarker d).length := by
  rw [markerLen, stripMarker]
  by_cases h : d.head? = some 255
  · rw [if_pos h, if_pos h]
    cases d with
    | nil => simp at h
    | cons a t =>
      simp only [List.length_cons, List.tail_cons]
      omega
  · rw [if_neg h, if_neg h]
    simp

/-- Error kinds and the success condition of `decodeBody`. -/
theorem decodeBody_errors (m : Mode) (body : List Nat) :
    (∀ e, decodeBody m body = .error e → e = CryptoError.FormatError)
    ∧ ((∃ r, decodeBody m body = .ok r) ↔
        (¬ body.length < 4 + 12 + 16
          ∧ ¬ (body.drop 4).length < fromBE (body.take 4) + 12 + 16
          ∧ (parseHeader ((body.drop 4).take (fromBE (body.take 4)))).isSome)) := by
  constructor
  · intro e he
    rw [decodeBody] at he
    split_ifs at he
    all_goals injection he with hx
    all_goals exact hx.symm
  · rw [decodeBody]
    split_ifs with h1 h2 h3
    · constructor
      · rintro ⟨r, hr⟩
        cases hr
      · rintro ⟨ha, -, -⟩
        exact absurd h1 ha
    · constructor
      · rintro ⟨r, hr⟩
        cases hr
      · rintro ⟨-, hb2, -⟩
        exact absurd h2 hb2
    · exact ⟨fun _ => ⟨h1, h2, h3⟩, fun _ => ⟨_, rfl⟩⟩
    · constructor
      · rintro ⟨r, hr⟩
        cases hr
      · rintro ⟨-, -, hp⟩
        exact absurd hp h3

/-- C6: `FormatCodec.decode` fails with `FormatError` — and with no other
error kind — exactly when the input is shorter than the minimum total length
(optional marker + 4 + declared header length + 12 + 16), when the declared
header length exceeds the bytes remaining after the length field, or when
the header bytes do not parse; on every other input it succeeds. -/
theorem C6_decode_failure_characterization (d : List Nat) :
    (∀ e, decode d = .error e → e = CryptoError.FormatError)
    ∧ ((∃ r, decode d = .ok r) ↔ ¬ decodeFails d) := by
  have hlen := length_stripMarker d
  have hsub : ((stripMarker d).drop 4).length = (stripMarker d).length - 4 := by simp
  by_cases hh : d.head? = some 255
  case pos =>
    have hmark : markerLen d = 1 := by rw [markerLen, if_pos hh]
    have hstrip : stripMarker d = d.tail := by rw [stripMarker, if_pos hh]
    have hdec : decode d = decodeBody Mode.password d.tail := by rw [decode, if_pos hh]
    obtain ⟨he, hiff⟩ := decodeBody_errors Mode.password d.tail
    rw [hdec]
    refine ⟨he, ?_⟩
    rw [hiff]
    simp only [decodeFails, declaredHeaderLen, headerSlice, hstrip, hmark]
    rw [hstrip] at hsub hlen
    constructor
    · rintro ⟨ha, hb, hp⟩
      rintro (hc | hc | hc)
      · omega
      · omega
      · rw [hp] at hc
        cases hc
    · intro hnot
      push_neg at hnot
      obtain ⟨hc1, hc2, hc3⟩ := hnot
      refine ⟨by omega, by omega, ?_⟩
      cases hp : (parseHeader ((d.tail.drop 4).take (fromBE (d.tail.take 4)))).isSome
      · exact absurd hp hc3
      · rfl
  case neg =>
    have hmark : markerLen d = 0 := by rw [markerLen, if_neg hh]
    have hstrip : stripMarker d = d := by rw [stripMarker, if_neg hh]
    have hdec : decode d = decodeBody Mode.keyMode d := by rw [decode, if_neg hh]
    obtain ⟨he, hiff⟩ := decodeBody_errors Mode.keyMode d
    rw [hdec]
    refine ⟨he, ?_⟩
    rw [hiff]
    simp only [decodeFails, declaredHeaderLen, headerSlice, hstrip, hmark]
    rw [hstrip] at hsub hlen
    constructor
    · rintro ⟨ha, hb, hp⟩
      rintro (hc | hc | hc)
      · omega
      · omega
      · rw [hp] at hc
        cases hc
    · intro hnot
      push_neg at hnot
      obtain ⟨hc1, hc2, hc3⟩ := hnot
      refine ⟨by omega, by omega, ?_⟩
      cases hp : (parseHeader ((d.drop 4).take (fromBE (d.take 4)))).isSome
      · exact absurd hp hc3
      · rfl

/-- Concrete instance of C6: the one-byte truncated input `[0]` fails (it is
below the minimum length), and its failure is a `FormatError`. -/
theorem C6_witness :
    decodeFails [0] ∧ (∀ e, decode [0] = Except.error e → e = CryptoError.FormatError) := by
  have h := C6_decode_failure_characterization [0]
  refine ⟨?_, h.1⟩
  by_contra hno
  obtain ⟨r, hr⟩ := h.2.mpr hno
  rw [show decode [0] = Except.error CryptoError.FormatError from rfl] at hr
  cases hr

/-- The length of the ciphertext field of the container a successful
encryption returns (`none` if encryption or decoding fails). -/
def containerCiphertextLen (r : Except CryptoError (List Nat)) : Option Nat :=
  match r with
  | .ok c =>
    match decode c with
    | .ok (_, _, _, ct) => some ct.length
    | .error _ => none
  | .error _ => none

/-- C7 counterexample: encrypting the three-byte plaintext `[7, 7, 7]`
stores a ciphertext of 18 bytes — the compressed plaintext (2 bytes) plus
the 16-byte tag — not `3 + 16 = 19` bytes as the claim states over the
original plaintext.  The encrypt dataflow compresses before sealing, so the
stored ciphertext length tracks the compressed length. -/
theorem C7_counterexample :
    containerCiphertextLen (encrypt [7, 7, 7] [97] (.rawKey (List.range 32))
      (List.replicate 12 0) (List.replicate 32 0) 0) = some 18
    ∧ (18 : Nat) ≠ [7, 7, 7].length + 16 := by
  constructor
  · decide
  · decide

/-- C7 (amended): the ciphertext stored in the container produced by
`encrypt` has length exactly the length of the **compressed** plaintext plus
the 16-byte authentication tag (the original claim, `|P| + 16` over the raw
plaintext, fails because compression changes the length — see the
counterexample). -/
theorem C7_ciphertext_length (P name : List Nat) (s : Secret)
    (nonce salt : List Nat) (ts : Nat)
    (hnonce : nonce.length = 12) (hsalt : salt.length = 32)
    (hname : name.length < 2 ^ 24) (hts : ts < 2 ^ 64)
    (hkey : ∀ k, s = .rawKey k → k.length = 32) :
    ∃ c m hb n ct, encrypt P name s nonce salt ts = .ok c ∧
      decode c = .ok (m, hb, n, ct) ∧ ct.length = (compress P).length + 16 := by
  cases s with
  | rawKey k =>
    have hk := hkey k rfl
    have hwf : HeaderWF (.keyH ⟨name, k, VERSION_KEY, ts⟩) :=
      ⟨(by omega : name.length < 2 ^ 32), (by omega : k.length < 2 ^ 32),
        by norm_num [VERSION_KEY], hts⟩
    have hparse := parse_serializeHeader _ hwf
    have hdec := decode_encode Mode.keyMode (serializeHeader (.keyH ⟨name, k, VERSION_KEY, ts⟩))
      nonce (sealAEAD k nonce (compress P)) (by simp [hparse])
      (by rw [length_serializeHeader_keyH]; simp only []; omega)
      hnonce (by rw [length_sealAEAD]; omega)
    refine ⟨_, _, _, _, _, ?_, hdec, length_sealAEAD k nonce (compress P)⟩
    simp only [encrypt]
    rw [if_neg (by omega)]
  | pw password =>
    have hwf : HeaderWF (.pwH ⟨name, salt, ARGON2_MEMORY_COST, ARGON2_TIME_COST,
        ARGON2_PARALLELISM, VERSION_PW, ts⟩) :=
      ⟨(by omega : name.length < 2 ^ 32), (by omega : salt.length < 2 ^ 32),
        by norm_num [ARGON2_MEMORY_COST], by norm_num [ARGON2_TIME_COST],
        by norm_num [ARGON2_PARALLELISM], by norm_num [VERSION_PW], hts⟩
    have hparse := parse_serializeHeader _ hwf
    have hdec := decode_encode Mode.password
      (serializeHeader (.pwH ⟨name, salt, ARGON2_MEMORY_COST, ARGON2_TIME_COST,
        ARGON2_PARALLELISM, VERSION_PW, ts⟩))
      nonce (sealAEAD (argon2id password salt ARGON2_MEMORY_COST ARGON2_TIME_COST
        ARGON2_PARALLELISM) nonce (compress P)) (by simp [hparse])
      (by rw [length_serializeHeader_pwH]; simp only []; omega)
      hnonce (by rw [length_sealAEAD]; omega)
    refine ⟨_, _, _, _, _, ?_, hdec, length_sealAEAD _ nonce (compress P)⟩
    simp only [encrypt]

/-- Concrete instance of the amended C7. -/
theorem C7_witness :
    ∃ c m hb n ct, encrypt [7, 7, 7] [97] (.rawKey (List.range 32))
        (List.replicate 12 0) (List.replicate 32 0) 0 = .ok c ∧
      decode c = .ok (m, hb, n, ct) ∧ ct.length = (compress [7, 7, 7]).length + 16 :=
  C7_ciphertext_length [7, 7, 7] [97] (.rawKey (List.range 32))
    (List.replicate 12 0) (List.replicate 32 0) 0
    (by simp) (by simp) (by norm_num) (by norm_num)
    (fun k hk => by cases hk; simp)

/-! ## Frontend: key generation (encrypt form) -/

/-- `KEY_SIZE_BYTES` from the frontend encrypt form. -/
def KEY_SIZE_BYTES : Nat := 32

/-- The base64 alphabet character for a 6-bit value. -/
def b64Char (n : Nat) : Char :=
  if n < 26 then Char.ofNat (65 + n)
  else if n < 52 then Char.ofNat (97 + (n - 26))
  else if n < 62 then Char.ofNat (48 + (n - 52))
  else if n = 62 then Char.ofNat 43
  else Char.ofNat 47

/-- Inverse of the base64 alphabet. -/
def b64DecChar (c : Char) : Option Nat :=
  if 65 ≤ c.toNat ∧ c.toNat ≤ 90 then some (c.toNat - 65)
  else if 97 ≤ c.toNat ∧ c.toNat ≤ 122 then some (c.toNat - 97 + 26)
  else if 48 ≤ c.toNat ∧ c.toNat ≤ 57 then some (c.toNat - 48 + 52)
  else if c = Char.ofNat 43 then some 62
  else if c = Char.ofNat 47 then some 63
  else none

/-- The `btoa` encoding used by the frontend: standard base64 with `=`
padding, three input bytes per four output characters. -/
def b64Encode : List Nat → List Char
  | [] => []
  | [a] => [b64Char (a / 4), b64Char (a % 4 * 16), Char.ofNat 61, Char.ofNat 61]
  | [a, b] => [b64Char (a / 4), b64Char (a % 4 * 16 + b / 16), b64Char (b % 16 * 4),
      Char.ofNat 61]
  | a :: b :: c :: rest =>
      b64Char (a / 4) :: b64Char (a % 4 * 16 + b / 16) ::
        b64Char (b % 16 * 4 + c / 64) :: b64Char (c % 64) :: b64Encode rest

/-- Standard base64 decoding (how the backend reads the `x-enc-key`
header). -/
def b64Decode : List Char → Option (List Nat)
  | [] => some []
  | c1 :: c2 :: c3 :: c4 :: rest =>
      (b64DecChar c1).bind fun n1 =>
      (b64DecChar c2).bind fun n2 =>
      if c3 = Char.ofNat 61 ∧ c4 = Char.ofNat 61 ∧ rest = [] then
        some [n1 * 4 + n2 / 16]
      else if c4 = Char.ofNat 61 ∧ rest = [] then
        (b64DecChar c3).bind fun n3 =>
          some [n1 * 4 + n2 / 16, n2 % 16 * 16 + n3 / 4]
      else
        (b64DecChar c3).bind fun n3 =>
        (b64DecChar c4).bind fun n4 =>
        (b64Decode rest).map fun tail =>
          (n1 * 4 + n2 / 16) :: (n2 % 16 * 16 + n3 / 4) :: (n3 % 4 * 64 + n4) :: tail
  | _ => none

theorem b64DecChar_b64Char : ∀ n, n < 64 → b64DecChar (b64Char n) = some n := by decide

theorem b64Char_ne_pad : ∀ n, n < 64 → b64Char n ≠ Char.ofNat 61 := by decide

theorem b64Decode_b64Encode :
    ∀ (l : List Nat), (∀ x ∈ l, x < 256) → b64Decode (b64Encode l) = some l := by
  intro l
  induction l using b64Encode.induct with
  | case1 => intro _; rfl
  | case2 a =>
    intro h
    have ha : a < 256 := h a (by simp)
    rw [b64Encode, b64Decode,
      b64DecChar_b64Char _ (by omega), Option.some_bind,
      b64DecChar_b64Char _ (by omega), Option.some_bind,
      if_pos ⟨rfl, rfl, rfl⟩]
    congr 1
    congr 1
    omega
  | case3 a b =>
    intro h
    have ha : a < 256 := h a (by simp)
    have hb : b < 256 := h b (by simp)
    rw [b64Encode, b64Decode,
      b64DecChar_b64Char _ (by omega), Option.some_bind,
      b64DecChar_b64Char _ (by omega), Option.some_bind,
      if_neg (fun hc => b64Char_ne_pad _ (by omega) hc.1),
      if_pos ⟨rfl, rfl⟩,
      b64DecChar_b64Char _ (by omega), Option.some_bind]
    congr 1
    congr 1
    · omega
    · congr 1
      omega
  | case4 a b c rest ih =>
    intro h
    have ha : a < 256 := h a (by simp)
    have hb : b < 256 := h b (by simp)
    have hc : c < 256 := h c (by simp)
    have htail : b64Decode (b64Encode rest) = some rest :=
      ih (fun x hx => h x (by simp [hx]))
    rw [b64Encode, b64Decode,
      b64DecChar_b64Char _ (by omega), Option.some_bind,
      b64DecChar_b64Char _ (by omega), Option.some_bind,
      if_neg (fun hx => b64Char_ne_pad _ (by omega) hx.1),
      if_neg (fun hx => b64Char_ne_pad _ (by omega) hx.1),
      b64DecChar_b64Char _ (by omega), Option.some_bind,
      b64DecChar_b64Char _ (by omega), Option.some_bind,
      htail, Option.map_some']
    congr 1
    congr 1
    · omega
    · congr 1
      · omega
      · congr 1
        omega

/-- Frontend `generateSecureKey` (encrypt form): fills `KEY_SIZE_BYTES`
bytes from `window.crypto.getRandomValues` and returns
`btoa(String.fromCharCode(...))`; the CSPRNG draw is the explicit
argument. -/
def generateSecureKey (randomBytes : List Nat) : List Char :=
  b64Encode randomBytes

/-- C8: every value returned by the frontend function `generateSecureKey` is a
base64 string that decodes to exactly the 32 random bytes it was built from
(`KEY_SIZE_BYTES`), so an auto-generated key always meets the backend
requirement that a raw key be exactly 32 bytes. -/
theorem C8_generateSecureKey_32_bytes (rnd : List Nat)
    (hlen : rnd.length = KEY_SIZE_BYTES) (hbytes : ∀ x ∈ rnd, x < 256) :
    b64Decode (generateSecureKey rnd) = some rnd ∧
      ∃ k, b64Decode (generateSecureKey rnd) = some k ∧ k.length = 32 := by
  have h := b64Decode_b64Encode rnd hbytes
  exact ⟨h, rnd, h, by rw [hlen]; rfl⟩

/-- Concrete instance of C8 on the byte draw `0,…,31`. -/
theorem C8_witness :
    b64Decode (generateSecureKey (List.range 32)) = some (List.range 32) :=
  (C8_generateSecureKey_32_bytes (List.range 32) (by decide) (by decide)).1

/-! ## Frontend: encrypt request headers -/

/-- The headers of an encrypt request built by the frontend. -/
structure EncryptRequest where
  origFilename : List Char
  xPassword : Option (List Char)
  xEncKey : Option (List Char)
deriving DecidableEq, Repr

/-- Frontend `encryptSingleFile` header logic (encrypt form): always sets
`x-orig-filename`; sets `x-password` when the entered password is truthy
(JavaScript: a non-empty string), otherwise `x-enc-key` with a freshly
generated key.  The CSPRNG draw behind `generateSecureKey` is the explicit
argument. -/
def buildEncryptRequest (fileName password : List Char) (randomBytes : List Nat) :
    EncryptRequest :=
  if password ≠ [] then ⟨fileName, some password, none⟩
  else ⟨fileName, none, some (generateSecureKey randomBytes)⟩

/-- C9: every encrypt request carries exactly one secret header —
`x-password` exactly when the entered password is non-empty, otherwise
`x-enc-key` holding a freshly generated key; in particular an empty
password silently selects the embedded-key mode instead of failing. -/
theorem C9_exactly_one_secret_header (fileName password : List Char)
    (randomBytes : List Nat) :
    ((buildEncryptRequest fileName password randomBytes).xPassword.isSome ≠
      (buildEncryptRequest fileName password randomBytes).xEncKey.isSome)
    ∧ (password ≠ [] → buildEncryptRequest fileName password randomBytes =
        ⟨fileName, some password, none⟩)
    ∧ (password = [] → buildEncryptRequest fileName password randomBytes =
        ⟨fileName, none, some (generateSecureKey randomBytes)⟩) := by
  by_cases hp : password = []
  · simp [buildEncryptRequest, hp]
  · simp [buildEncryptRequest, hp]

/-- Concrete instance of C9: an empty password selects the generated-key
header. -/
theorem C9_witness :
    buildEncryptRequest [Char.ofNat 97] [] (List.range 32) =
      ⟨[Char.ofNat 97], none, some (generateSecureKey (List.range 32))⟩ :=
  (C9_exactly_one_secret_header [Char.ofNat 97] [] (List.range 32)).2.2 rfl

/-! ## Frontend: decrypt download filename -/

/-- Case-insensitive character comparison (the `/i` regex flag). -/
def lcEq (p c : Char) : Bool := p.toLower == c.toLower

/-- Match a literal pattern case-insensitively at the head, returning the
rest of the input. -/
def matchLitCI : List Char → List Char → Option (List Char)
  | [], s => some s
  | _ :: _, [] => none
  | p :: ps, c :: cs => if lcEq p c then matchLitCI ps cs else none

/-- The character class `[^";\r\n]` of the first filename regex excludes
the double quote, the semicolon, CR and LF. -/
def isStopChar (c : Char) : Bool :=
  c == Char.ofNat 34 || c == Char.ofNat 59 || c == Char.ofNat 13 || c == Char.ofNat 10

/-- One attempt of the first regex of `extractFilenameFromHeader`,
written in the source as slash, `filename`, optional star, `=`, a group of
either the 7 characters `UTF-8` plus two apostrophes or an optional double
quote, and a starred negated class of quote, semicolon, CR, LF — applied
case-insensitively at a fixed start position: after the literal `filename`
(case-insensitive), an optional `*` and `=`, it consumes the UTF-8 prefix
or an optional opening quote, then captures the
capture — the longest run free of `"`, `;`, CR and LF (possibly empty). -/
def tryFilenameAt (s : List Char) : Option (List Char) :=
  match matchLitCI ("filename".toList) s with
  | none => none
  | some r1 =>
    match (match r1 with
           | c :: t => if c = Char.ofNat 42 then t else r1
           | [] => r1) with
    | c :: r3 =>
      if c = Char.ofNat 61 then
        some ((match matchLitCI ("UTF-8".toList ++ [Char.ofNat 39, Char.ofNat 39]) r3 with
          | some t => t
          | none => match r3 with
            | q :: t => if q = Char.ofNat 34 then t else r3
            | [] => r3).takeWhile (fun c2 => !(isStopChar c2)))
      else none
    | [] => none

/-- Leftmost-match search of a position-wise matcher, like
`String.prototype.match` with a non-global regex. -/
def findFirstMatch (f : List Char → Option (List Char)) : List Char → Option (List Char)
  | [] => f []
  | s@(_ :: t) =>
    match f s with
    | some v => some v
    | none => findFirstMatch f t

/-- One attempt of the fallback regex `/filename="([^"]+)"/i` at a fixed
start position: the literal `filename="`, then a non-empty capture of
non-quote characters, then the closing quote. -/
def tryQuotedAt (s : List Char) : Option (List Char) :=
  match matchLitCI ("filename=".toList ++ [Char.ofNat 34]) s with
  | none => none
  | some r =>
    match r.takeWhile (fun c => c != Char.ofNat 34) with
    | [] => none
    | cap =>
      match r.drop cap.length with
      | q :: _ => if q = Char.ofNat 34 then some cap else none
      | [] => none

/-- JavaScript whitespace trimmed by `String.prototype.trim` (ASCII part). -/
def isJsWS (c : Char) : Bool :=
  c == Char.ofNat 32 || c == Char.ofNat 9 || c == Char.ofNat 10 ||
    c == Char.ofNat 11 || c == Char.ofNat 12 || c == Char.ofNat 13

/-- `String.prototype.trim` on the captured value. -/
def trimWS (s : List Char) : List Char :=
  ((s.dropWhile isJsWS).reverse.dropWhile isJsWS).reverse

/-- Hex digit value for `decodeURIComponent`. -/
def hexVal (c : Char) : Option Nat :=
  if 48 ≤ c.toNat ∧ c.toNat ≤ 57 then some (c.toNat - 48)
  else if 65 ≤ c.toNat ∧ c.toNat ≤ 70 then some (c.toNat - 55)
  else if 97 ≤ c.toNat ∧ c.toNat ≤ 102 then some (c.toNat - 87)
  else none

/-- `decodeURIComponent` modelled at the byte level: every `%XX` escape with
two hex digits becomes the byte `XX`; a `%` not followed by two hex digits
throws (`none` here), as the JavaScript builtin throws `URIError`
(multi-byte UTF-8 recombination of decoded bytes is abstracted away). -/
def pctDecode : List Char → Option (List Char)
  | [] => some []
  | c :: rest =>
    if c = Char.ofNat 37 then
      match rest with
      | a :: b :: rest2 =>
        (hexVal a).bind fun ha =>
        (hexVal b).bind fun hb =>
        (pctDecode rest2).map fun tail => Char.ofNat (16 * ha + hb) :: tail
      | _ => none
    else (pctDecode rest).map fun tail => c :: tail

/-- Outcome of the decrypt download path: a saved filename, or an uncaught
`URIError` thrown by `decodeURIComponent` (no file saved). -/
inductive DownloadOutcome
  | saved : List Char → DownloadOutcome
  | uriError : DownloadOutcome
deriving DecidableEq, Repr

/-- Frontend `extractFilenameFromHeader` (decrypt form): the capture of the
first regex, trimmed and URI-decoded, when it matches; else the capture of
the quoted fallback, returned raw; else the literal `decrypted.bin`. -/
def extractFilenameFromHeader (disposition : List Char) : DownloadOutcome :=
  match findFirstMatch tryFilenameAt disposition with
  | some cap =>
    match pctDecode (trimWS cap) with
    | some v => .saved v
    | none => .uriError
  | none =>
    match findFirstMatch tryQuotedAt disposition with
    | some cap => .saved cap
    | none => .saved ("decrypted.bin".toList)

/-- Frontend `downloadFile` (decrypt form): the saved name is
`decrypted.bin` when the `Content-Disposition` header is absent, otherwise
whatever `extractFilenameFromHeader` produces. -/
def savedFilename (disposition : Option (List Char)) : DownloadOutcome :=
  match disposition with
  | none => .saved ("decrypted.bin".toList)
  | some d => extractFilenameFromHeader d

/-- C10 counterexample: for the response header `filename=%` the first
regex matches with capture `%`, whose URI-decoding throws, so no filename —
neither an extracted value nor the `decrypted.bin` default — is ever saved,
contradicting the claim that every decrypt response saves one. -/
theorem C10_counterexample :
    savedFilename (some ("filename=%".toList)) = DownloadOutcome.uriError := by
  decide

/-- C10 (amended): when the `Content-Disposition` extraction does not throw,
the saved filename is the URI-decoded capture of the first filename regex
when it matches (the raw quoted capture under the fallback), and the
literal `decrypted.bin` when the header is absent or neither regex matches;
when the matched capture has malformed percent-encoding the extraction
throws `URIError` and nothing is saved. -/
theorem C10_saved_filename (d : Option (List Char)) :
    (d = none → savedFilename d = .saved ("decrypted.bin".toList))
    ∧ (∀ s, d = some s → findFirstMatch tryFilenameAt s = none →
        findFirstMatch tryQuotedAt s = none →
        savedFilename d = .saved ("decrypted.bin".toList))
    ∧ (∀ s cap v, d = some s → findFirstMatch tryFilenameAt s = some cap →
        pctDecode (trimWS cap) = some v → savedFilename d = .saved v)
    ∧ (∀ s cap, d = some s → findFirstMatch tryFilenameAt s = some cap →
        pctDecode (trimWS cap) = none → savedFilename d = .uriError)
    ∧ (∀ s cap, d = some s → findFirstMatch tryFilenameAt s = none →
        findFirstMatch tryQuotedAt s = some cap → savedFilename d = .saved cap) := by
  refine ⟨?_, ?_, ?_, ?_, ?_⟩
  · rintro rfl
    rfl
  · rintro s rfl h1 h2
    simp only [savedFilename, extractFilenameFromHeader, h1, h2]
  · rintro s cap v rfl h1 h2
    simp only [savedFilename, extractFilenameFromHeader, h1, h2]
  · rintro s cap rfl h1 h2
    simp only [savedFilename, extractFilenameFromHeader, h1, h2]
  · rintro s cap rfl h1 h2
    simp only [savedFilename, extractFilenameFromHeader, h1, h2]

/-- Concrete instance of the amended C10: a percent-encoded filename is
URI-decoded before saving. -/
theorem C10_witness :
    savedFilename (some ("attachment; filename=a%20b".toList)) =
      DownloadOutcome.saved ("a b".toList) :=
  (C10_saved_filename (some ("attachment; filename=a%20b".toList))).2.2.1
    ("attachment; filename=a%20b".toList) ("a%20b".toList) ("a b".toList)
    rfl (by decide) (by decide)

end EncryptX
